import Mathlib

/-!
# Verification of the tenancy_eval text-similarity core

Shallow embedding of `src/tenancy_eval/metrics.py` (ROUGE-N, ROUGE-L over a
whitespace/lowercase tokenizer) and of the scoring/aggregation part of
`src/tenancy_eval/evaluate.py`.  Python floats are modelled as rationals
(every arithmetic operation the code performs on scores is exact division,
multiplication and addition), Python `None` as `Option.none`, and the
tokenizer operates on the character list underlying a `String`.
-/

namespace TenancyEval

/-- A token: one whitespace-free, lowercased word, as a character list. -/
abbrev Token := List Char

/-- Split a character list at every whitespace character, keeping the
(possibly empty) pieces between separators.  After empty pieces are dropped
this is exactly Python `str.split()` (maximal runs of non-whitespace). -/
def splitWs : List Char → List Char → List (List Char)
  | [], acc => [acc.reverse]
  | c :: cs, acc =>
      if c.isWhitespace then acc.reverse :: splitWs cs []
      else splitWs cs (c :: acc)

/-- `_tokenize` from metrics.py: `None` gives `[]`; otherwise lowercase,
split on whitespace, and drop empty pieces. -/
def _tokenize (text : Option String) : List Token :=
  match text with
  | none => []
  | some t => (splitWs (t.toList.map Char.toLower) []).filter (fun w => w ≠ [])

/-- `_ngrams` from metrics.py: contiguous n-grams when the sequence has at
least `n` tokens, else the empty list. -/
def _ngrams (tokens : List Token) (n : ℕ) : List (List Token) :=
  if n ≤ tokens.length then
    (List.range (tokens.length - n + 1)).map (fun i => (tokens.drop i).take n)
  else []

/-- The three score fields returned by the metric functions. -/
@[ext]
structure ScoreResult where
  precision : ℚ
  «recall» : ℚ
  f1 : ℚ
deriving DecidableEq

/-- `_precision_recall_f1` from metrics.py, on exact rationals. -/
def _precision_recall_f1 (overlap pred_total ref_total : ℕ) : ℚ × ℚ × ℚ :=
  let p : ℚ := if 0 < pred_total then (overlap : ℚ) / (pred_total : ℚ) else 0
  let r : ℚ := if 0 < ref_total then (overlap : ℚ) / (ref_total : ℚ) else 0
  let f1 : ℚ := if 0 < p + r then 2 * p * r / (p + r) else 0
  (p, r, f1)

/-- The clipped-count overlap loop of `rouge_n`: iterate over the distinct
candidate n-grams (`Counter.items`) and add `min(count_in_candidate,
count_in_reference)`. -/
def overlapCount (pred_ngrams ref_ngrams : List (List Token)) : ℕ :=
  (pred_ngrams.dedup.map
    (fun ng => min (pred_ngrams.count ng) (ref_ngrams.count ng))).sum

/-- `rouge_n` from metrics.py. -/
def rouge_n (ref pred : Option String) (n : ℕ) : ScoreResult :=
  let ref_t := _tokenize ref
  let pred_t := _tokenize pred
  let ref_ngrams := _ngrams ref_t n
  let pred_ngrams := _ngrams pred_t n
  let overlap := overlapCount pred_ngrams ref_ngrams
  let prf := _precision_recall_f1 overlap pred_ngrams.length ref_ngrams.length
  ⟨prf.1, prf.2.1, prf.2.2⟩

/-- One pass of the inner `for j in range(1, n+1)` loop of `_lcs_length`.
`ds` carries the still-unoverwritten old-row entries `dp[j..]`, `prev` the
old value of `dp[j-1]` (the `prev`/`tmp` variable), `left` the already
written new value of `dp[j-1]`. -/
def lcsInner (x : Token) : List Token → List ℕ → ℕ → ℕ → List ℕ
  | y :: ys, d :: ds, prev, left =>
      let v := if x = y then prev + 1 else max d left
      v :: lcsInner x ys ds d v
  | _, _, _, _ => []

/-- `_lcs_length` from metrics.py: the rolling row `dp` of length
`len(ys)+1`, starting all zero, updated once per element of `xs`; the
result is `dp[len(ys)]`.  `dp[0]` is never written and stays `0`. -/
def _lcs_length (xs ys : List Token) : ℕ :=
  let dp := xs.foldl (fun dp x => 0 :: lcsInner x ys dp.tail 0 0)
    (List.replicate (ys.length + 1) 0)
  dp.getD ys.length 0

/-- `rouge_l_f1` from metrics.py. -/
def rouge_l_f1 (ref pred : Option String) : ScoreResult :=
  let ref_t := _tokenize ref
  let pred_t := _tokenize pred
  let lcs := _lcs_length ref_t pred_t
  let p : ℚ := if 0 < pred_t.length then (lcs : ℚ) / (pred_t.length : ℚ) else 0
  let r : ℚ := if 0 < ref_t.length then (lcs : ℚ) / (ref_t.length : ℚ) else 0
  let f1 : ℚ := if 0 < p + r then 2 * p * r / (p + r) else 0
  ⟨p, r, f1⟩

/-- The textbook LCS-length recurrence, used as the specification that the
rolling-row program is verified against. -/
def lcsSpec : List Token → List Token → ℕ
  | [], _ => 0
  | _, [] => 0
  | x :: xs, y :: ys =>
      if x = y then lcsSpec xs ys + 1
      else max (lcsSpec (x :: xs) ys) (lcsSpec xs (y :: ys))
termination_by xs ys => xs.length + ys.length

/-! ## Embedding of evaluate.py -/

/-- A test record as evaluate.py reads it.  An optional JSON field is
`none` when absent and `some none` when present with value `null`. -/
structure TestCase where
  id : String
  reference_answer : Option String
  difficulty : Option (Option String)
  topic : Option (Option String)

/-- A prediction record; `model_answer` may be absent or `null`. -/
structure Prediction where
  id : String
  model_answer : Option (Option String)

/-- `safe_get` from evaluate.py, at the use sites' types: an absent field
or a field holding `null` both fall back to the default. -/
def safe_get (v : Option (Option String)) (default : String) : String :=
  match v with
  | some (some s) => s
  | _ => default

/-- The `preds[j["id"]] = j` dict build: the last record with a given id
wins. -/
def predIndex (preds : List Prediction) (tid : String) : Option Prediction :=
  preds.foldl (fun acc p => if p.id = tid then some p else acc) none

/-- `preds.get(tid, {}).get("model_answer", "")`: a missing record or a
missing field gives the empty string; a `null` field gives Python `None`. -/
def candidateOf (preds : List Prediction) (tid : String) : Option String :=
  match predIndex preds tid with
  | none => some ""
  | some p =>
      match p.model_answer with
      | none => some ""
      | some v => v

/-- One row of `per_item` in evaluate.py. -/
structure PerItem where
  id : String
  difficulty : String
  topic : String
  rouge1_f1 : ℚ
  rouge2_f1 : ℚ
  rougeL_f1 : ℚ

/-- The body of the scoring loop of `evaluate` for one test case. -/
def scoreItem (preds : List Prediction) (t : TestCase) : PerItem :=
  let pred := candidateOf preds t.id
  { id := t.id
    difficulty := safe_get t.difficulty "unknown"
    topic := safe_get t.topic "unknown"
    rouge1_f1 := (rouge_n t.reference_answer pred 1).f1
    rouge2_f1 := (rouge_n t.reference_answer pred 2).f1
    rougeL_f1 := (rouge_l_f1 t.reference_answer pred).f1 }

/-- The `(diff, topic)` bucket key of the scoring loop. -/
def bucketKey (t : TestCase) : String × String :=
  (safe_get t.difficulty "unknown", safe_get t.topic "unknown")

/-- `mean_safe` from evaluate.py. -/
def mean_safe (xs : List ℚ) : ℚ :=
  if xs ≠ [] then xs.sum / (xs.length : ℚ) else 0

/-- Python list indexing: a negative index counts from the end; an index
out of range on either side raises (modelled as `none`). -/
def pyIndex (l : List ℚ) (i : ℤ) : Option ℚ :=
  if 0 ≤ i then l[i.toNat]?
  else if 0 ≤ i + l.length then l[(i + l.length).toNat]? else none

/-- The `overall` statistics dictionary of evaluate.py. -/
structure Overall where
  count : ℕ
  rouge1_mean : ℚ
  rouge2_mean : ℚ
  rougeL_mean : ℚ
  rougeL_p10 : ℚ
  rougeL_p90 : ℚ

/-- The scoring-and-aggregation part of `evaluate` (everything between the
parsed inputs and the report rendering).  `int(0.1*n)` and `int(0.9*n)`
are `⌊n/10⌋` and `⌊9n/10⌋`; the possibly negative p90 index goes through
Python indexing, whose failure would be an uncaught exception (`none`). -/
def evaluate (tests : List TestCase) (preds : List Prediction) :
    Option (List PerItem × Overall) :=
  let per_item := tests.map (scoreItem preds)
  let overall_r1 := per_item.map (fun it => it.rouge1_f1)
  let overall_r2 := per_item.map (fun it => it.rouge2_f1)
  let overall_rl := per_item.map (fun it => it.rougeL_f1)
  let rl_sorted := List.insertionSort (fun a b : ℚ => a ≤ b) overall_rl
  let n := rl_sorted.length
  let p10 := if rl_sorted ≠ [] then pyIndex rl_sorted ((n : ℤ) / 10) else some 0
  let p90 :=
    if rl_sorted ≠ [] then pyIndex rl_sorted (9 * (n : ℤ) / 10 - 1) else some 0
  match p10, p90 with
  | some v10, some v90 =>
      some (per_item,
        { count := per_item.length
          rouge1_mean := mean_safe overall_r1
          rouge2_mean := mean_safe overall_r2
          rougeL_mean := mean_safe overall_rl
          rougeL_p10 := v10
          rougeL_p90 := v90 })
  | _, _ => none

/-! ## LCS: the rolling row computes the textbook recurrence -/

lemma lcsSpec_nil_left (l : List Token) : lcsSpec [] l = 0 := by
  cases l <;> simp [lcsSpec]

lemma lcsSpec_nil_right (l : List Token) : lcsSpec l [] = 0 := by
  cases l <;> simp [lcsSpec]

lemma lcsSpec_single_left (x : Token) (l : List Token) :
    lcsSpec [x] l = if x ∈ l then 1 else 0 := by
  induction l with
  | nil => simp [lcsSpec]
  | cons y ys ih =>
      by_cases h : x = y
      · subst h
        simp [lcsSpec, lcsSpec_nil_left]
      · simp only [lcsSpec, if_neg h, ih, lcsSpec_nil_left, List.mem_cons]
        split_ifs with h1 h2 h2 <;> simp_all

lemma lcsSpec_single_right (y : Token) (l : List Token) :
    lcsSpec l [y] = if y ∈ l then 1 else 0 := by
  induction l with
  | nil => simp [lcsSpec]
  | cons x xs ih =>
      by_cases h : x = y
      · subst h
        simp [lcsSpec, lcsSpec_nil_right]
      · simp only [lcsSpec, if_neg h, ih, lcsSpec_nil_right, List.mem_cons]
        split_ifs with h1 h2 h2 <;> simp_all

theorem lcsSpec_snoc (x y : Token) :
    ∀ as bs : List Token,
      lcsSpec (as ++ [x]) (bs ++ [y]) =
        if x = y then lcsSpec as bs + 1
        else max (lcsSpec (as ++ [x]) bs) (lcsSpec as (bs ++ [y]))
  | [], bs => by
      simp only [List.nil_append, lcsSpec_single_left, lcsSpec_nil_left,
        List.mem_append, List.mem_singleton]
      by_cases hxy : x = y <;> simp [hxy]
  | a :: as, [] => by
      simp only [List.nil_append, List.cons_append, lcsSpec_single_right,
        lcsSpec_nil_right, List.mem_cons, List.mem_append, List.mem_singleton]
      by_cases hxy : x = y
      · simp [hxy]
      · have hyx : ¬y = x := fun hh => hxy hh.symm
        simp only [if_neg hxy, hyx, or_false, false_or, List.not_mem_nil]
        split_ifs <;> simp_all
  | a :: as, b :: bs => by
      have h1 := lcsSpec_snoc x y as (b :: bs)
      have h2 := lcsSpec_snoc x y (a :: as) bs
      have h3 := lcsSpec_snoc x y as bs
      simp only [List.cons_append] at h1 h2 ⊢
      by_cases hab : a = b
      · subst hab
        simp only [lcsSpec, if_pos rfl, h1, h2, h3]
        split_ifs <;> omega
      · simp only [lcsSpec, if_neg hab, h1, h2, h3]
        split_ifs <;> omega
termination_by as bs => as.length + bs.length

/-- The DP row for processed prefix `p`, positions `acc.length+1 ..`:
entry `j` is the LCS length of `p` against the prefix of `ys` extended
`j+1` columns past `acc`. -/
def lcsRowTail (p : List Token) : List Token → List Token → List ℕ
  | _, [] => []
  | acc, y :: ys => lcsSpec p (acc ++ [y]) :: lcsRowTail p (acc ++ [y]) ys

lemma lcsInner_spec (x : Token) (p : List Token) :
    ∀ ys acc : List Token,
      lcsInner x ys (lcsRowTail p acc ys) (lcsSpec p acc) (lcsSpec (p ++ [x]) acc) =
        lcsRowTail (p ++ [x]) acc ys
  | [], _ => rfl
  | y :: ys, acc => by
      simp only [lcsRowTail, lcsInner]
      have hv : (if x = y then lcsSpec p acc + 1
            else max (lcsSpec p (acc ++ [y])) (lcsSpec (p ++ [x]) acc)) =
          lcsSpec (p ++ [x]) (acc ++ [y]) := by
        rw [lcsSpec_snoc x y p acc]
        split_ifs <;> omega
      rw [hv]
      exact congrArg _ (lcsInner_spec x p ys (acc ++ [y]))

lemma lcsRowTail_nil (acc ys : List Token) :
    lcsRowTail [] acc ys = List.replicate ys.length 0 := by
  induction ys generalizing acc with
  | nil => rfl
  | cons y ys ih => simp [lcsRowTail, lcsSpec_nil_left, ih, List.replicate_succ]

lemma lcs_foldl (ys : List Token) :
    ∀ rest p : List Token,
      rest.foldl (fun dp x => 0 :: lcsInner x ys dp.tail 0 0)
          (0 :: lcsRowTail p [] ys) =
        0 :: lcsRowTail (p ++ rest) [] ys
  | [], p => by simp
  | x :: rest, p => by
      rw [List.foldl_cons]
      have hin := lcsInner_spec x p ys []
      rw [lcsSpec_nil_right, lcsSpec_nil_right] at hin
      simp only [List.tail_cons, hin]
      rw [lcs_foldl ys rest (p ++ [x])]
      simp

lemma lcsRowTail_getD (p : List Token) :
    ∀ (ys acc : List Token) (k : ℕ), k < ys.length →
      (lcsRowTail p acc ys).getD k 0 = lcsSpec p (acc ++ ys.take (k + 1))
  | [], _, k, h => absurd h (by simp)
  | y :: ys, acc, 0, _ => by simp [lcsRowTail]
  | y :: ys, acc, k + 1, h => by
      simp only [lcsRowTail, List.getD_cons_succ, List.take_succ_cons]
      rw [lcsRowTail_getD p ys (acc ++ [y]) k (by simpa using h)]
      simp

/-- Main LCS helper: the rolling-row program agrees with the textbook
recurrence on all inputs. -/
lemma lcs_length_eq_lcsSpec (xs ys : List Token) :
    _lcs_length xs ys = lcsSpec xs ys := by
  unfold _lcs_length
  have hrepl : List.replicate (ys.length + 1) (0 : ℕ) =
      0 :: lcsRowTail ([] : List Token) [] ys := by
    rw [lcsRowTail_nil, List.replicate_succ]
  rw [hrepl, lcs_foldl ys xs [], List.nil_append]
  cases ys with
  | nil => simp [lcsRowTail, lcsSpec_nil_right]
  | cons y ys' =>
      have hlen : (y :: ys').length = ys'.length + 1 := rfl
      rw [hlen, List.getD_cons_succ,
        lcsRowTail_getD xs (y :: ys') [] ys'.length (by simp)]
      simp

lemma lcsSpec_le_left : ∀ xs ys : List Token, lcsSpec xs ys ≤ xs.length := by
  intro xs ys
  induction xs, ys using lcsSpec.induct with
  | case1 ys => simp [lcsSpec_nil_left]
  | case2 xs h => simp [lcsSpec_nil_right]
  | case3 x xs ys ih => simp only [lcsSpec, if_pos rfl]; simpa using ih
  | case4 x xs y ys h ih1 ih2 =>
      simp only [lcsSpec, if_neg h]
      simp only [List.length_cons] at ih1 ih2 ⊢
      omega

lemma lcsSpec_le_right : ∀ xs ys : List Token, lcsSpec xs ys ≤ ys.length := by
  intro xs ys
  induction xs, ys using lcsSpec.induct with
  | case1 ys => simp [lcsSpec_nil_left]
  | case2 xs h => simp [lcsSpec_nil_right]
  | case3 x xs ys ih => simp only [lcsSpec, if_pos rfl]; simpa using ih
  | case4 x xs y ys h ih1 ih2 =>
      simp only [lcsSpec, if_neg h]
      simp only [List.length_cons] at ih1 ih2 ⊢
      omega

lemma lcsSpec_self (l : List Token) : lcsSpec l l = l.length := by
  induction l with
  | nil => simp [lcsSpec]
  | cons x xs ih => simp [lcsSpec, ih]

lemma lcsSpec_comm : ∀ xs ys : List Token, lcsSpec xs ys = lcsSpec ys xs := by
  intro xs ys
  induction xs, ys using lcsSpec.induct with
  | case1 ys => simp [lcsSpec_nil_left, lcsSpec_nil_right]
  | case2 xs h => simp [lcsSpec_nil_left, lcsSpec_nil_right]
  | case3 x xs ys ih => simp [lcsSpec, ih]
  | case4 x xs y ys h ih1 ih2 =>
      have h' : ¬y = x := fun hh => h hh.symm
      simp only [lcsSpec, if_neg h, if_neg h', ih1, ih2]
      omega

/-! ## Clipped-count overlap -/

/-- The `BEq` instance the elaborator picks for `List.count` on n-grams and
the one Mathlib's counting lemmas are stated with decide the same equality. -/
lemma beqInst : (List.instBEq : BEq (List Token)) = instBEqOfDecidableEq := by
  have hfun : @BEq.beq (List Token) List.instBEq = @BEq.beq _ instBEqOfDecidableEq := by
    funext a b
    by_cases h : a = b
    · subst h
      rw [@beq_self_eq_true _ List.instBEq, @beq_self_eq_true _ instBEqOfDecidableEq]
    · rw [@beq_eq_false_iff_ne _ List.instBEq _ |>.mpr h,
        @beq_eq_false_iff_ne _ instBEqOfDecidableEq _ |>.mpr h]
  calc (List.instBEq : BEq (List Token))
      = BEq.mk (@BEq.beq _ List.instBEq) := rfl
    _ = BEq.mk (@BEq.beq _ instBEqOfDecidableEq) := by rw [hfun]
    _ = instBEqOfDecidableEq := rfl

lemma count_decEq (a : List Token) (l : List (List Token)) :
    l.count a = @List.count (List Token) instBEqOfDecidableEq a l := by
  rw [beqInst]

lemma dedup_toFinset (l : List (List Token)) : l.dedup.toFinset = l.toFinset :=
  List.toFinset.ext_iff.mpr fun _ => List.mem_dedup

lemma overlapCount_eq_sum_toFinset (pred ref : List (List Token)) :
    overlapCount pred ref =
      ∑ ng ∈ pred.toFinset, min (pred.count ng) (ref.count ng) := by
  rw [overlapCount]
  simp only [count_decEq]
  rw [← dedup_toFinset pred, List.sum_toFinset _ (List.nodup_dedup pred)]

lemma overlapCount_le_pred (pred ref : List (List Token)) :
    overlapCount pred ref ≤ pred.length := by
  rw [overlapCount]
  simp only [count_decEq]
  calc (pred.dedup.map fun ng =>
        min (@List.count _ instBEqOfDecidableEq ng pred)
          (@List.count _ instBEqOfDecidableEq ng ref)).sum
      ≤ (pred.dedup.map fun ng => @List.count _ instBEqOfDecidableEq ng pred).sum :=
        List.sum_le_sum (fun i _ => min_le_left _ _)
    _ = pred.length := List.sum_map_count_dedup_eq_length pred

lemma overlapCount_le_ref (pred ref : List (List Token)) :
    overlapCount pred ref ≤ ref.length := by
  rw [overlapCount_eq_sum_toFinset]
  simp only [count_decEq]
  calc ∑ ng ∈ pred.toFinset,
        min (@List.count _ instBEqOfDecidableEq ng pred)
          (@List.count _ instBEqOfDecidableEq ng ref)
      ≤ ∑ ng ∈ pred.toFinset, @List.count _ instBEqOfDecidableEq ng ref :=
        Finset.sum_le_sum (fun i _ => min_le_right _ _)
    _ ≤ ∑ ng ∈ pred.toFinset ∪ ref.toFinset, @List.count _ instBEqOfDecidableEq ng ref :=
        Finset.sum_le_sum_of_subset Finset.subset_union_left
    _ = ∑ ng ∈ ref.toFinset, @List.count _ instBEqOfDecidableEq ng ref := by
        refine (Finset.sum_subset Finset.subset_union_right ?_).symm
        intro x _ hnx
        rw [← count_decEq]
        exact List.count_eq_zero_of_not_mem fun hm => hnx (List.mem_toFinset.mpr hm)
    _ = ref.length := List.sum_toFinset_count_eq_length ref

lemma _ngrams_length (tokens : List Token) (n : ℕ) (h : n ≤ tokens.length) :
    (_ngrams tokens n).length = tokens.length - n + 1 := by
  simp [_ngrams, h]

lemma _ngrams_eq_nil (tokens : List Token) (n : ℕ) (h : tokens.length < n) :
    _ngrams tokens n = [] := by
  rw [_ngrams, if_neg (by omega)]

lemma _lcs_length_le_left (xs ys : List Token) : _lcs_length xs ys ≤ xs.length := by
  rw [lcs_length_eq_lcsSpec]
  exact lcsSpec_le_left xs ys

lemma _lcs_length_le_right (xs ys : List Token) : _lcs_length xs ys ≤ ys.length := by
  rw [lcs_length_eq_lcsSpec]
  exact lcsSpec_le_right xs ys

/-! ## Score arithmetic -/

/-- All structural facts about a precision/recall/f1 triple computed by the
guarded formulas of metrics.py, given that the overlap is clipped by both
totals. -/
lemma score_bounds (ov pt rt : ℕ) (h1 : ov ≤ pt) (h2 : ov ≤ rt)
    (p r f1 : ℚ)
    (hp : p = if 0 < pt then (ov : ℚ) / (pt : ℚ) else 0)
    (hr : r = if 0 < rt then (ov : ℚ) / (rt : ℚ) else 0)
    (hf : f1 = if 0 < p + r then 2 * p * r / (p + r) else 0) :
    0 ≤ p ∧ p ≤ 1 ∧ 0 ≤ r ∧ r ≤ 1 ∧ 0 ≤ f1 ∧ f1 ≤ 1 ∧
      (f1 = 0 ↔ p + r = 0) ∧
      (p + r ≠ 0 → f1 = 2 * p * r / (p + r)) := by
  have hp0 : 0 ≤ p := by
    rw [hp]
    split_ifs with h
    · positivity
    · exact le_refl 0
  have hr0 : 0 ≤ r := by
    rw [hr]
    split_ifs with h
    · positivity
    · exact le_refl 0
  have hp1 : p ≤ 1 := by
    rw [hp]
    split_ifs with h
    · rw [div_le_one (by exact_mod_cast h)]
      exact_mod_cast h1
    · norm_num
  have hr1 : r ≤ 1 := by
    rw [hr]
    split_ifs with h
    · rw [div_le_one (by exact_mod_cast h)]
      exact_mod_cast h2
    · norm_num
  have hkey : (p = 0 ∧ r = 0) ∨ (0 < p ∧ 0 < r) := by
    rcases Nat.eq_zero_or_pos ov with hov | hov
    · left
      subst hov
      constructor <;> [rw [hp]; rw [hr]] <;> split_ifs <;> simp
    · right
      have hpt : 0 < pt := lt_of_lt_of_le hov h1
      have hrt : 0 < rt := lt_of_lt_of_le hov h2
      rw [hp, hr, if_pos hpt, if_pos hrt]
      constructor <;> positivity
  have hf0 : 0 ≤ f1 := by
    rw [hf]
    split_ifs with h
    · positivity
    · exact le_refl 0
  have hf1 : f1 ≤ 1 := by
    rw [hf]
    split_ifs with h
    · rw [div_le_one h]
      nlinarith [mul_nonneg hp0 (sub_nonneg.mpr hr1), mul_nonneg hr0 (sub_nonneg.mpr hp1)]
    · norm_num
  have hiff : f1 = 0 ↔ p + r = 0 := by
    constructor
    · intro h0
      by_contra hne
      have hpos : 0 < p + r := lt_of_le_of_ne (by positivity) (Ne.symm hne)
      rw [hf, if_pos hpos] at h0
      rcases hkey with ⟨hpz, hrz⟩ | ⟨hpp, hrp⟩
      · exact hne (by rw [hpz, hrz]; norm_num)
      · have : 0 < 2 * p * r / (p + r) := by positivity
        exact absurd h0 (ne_of_gt this)
    · intro h0
      rw [hf, h0]
      simp
  exact ⟨hp0, hp1, hr0, hr1, hf0, hf1, hiff, fun hne => by
    rw [hf, if_pos (lt_of_le_of_ne (by positivity) (Ne.symm hne))]⟩

/-! ## Component characterizations of the two metric functions -/

lemma rouge_n_precision_def (ref pred : Option String) (n : ℕ) :
    (rouge_n ref pred n).precision =
      if 0 < (_ngrams (_tokenize pred) n).length then
        (overlapCount (_ngrams (_tokenize pred) n) (_ngrams (_tokenize ref) n) : ℚ) /
          ((_ngrams (_tokenize pred) n).length : ℚ)
      else 0 := rfl

lemma rouge_n_recall_def (ref pred : Option String) (n : ℕ) :
    (rouge_n ref pred n).«recall» =
      if 0 < (_ngrams (_tokenize ref) n).length then
        (overlapCount (_ngrams (_tokenize pred) n) (_ngrams (_tokenize ref) n) : ℚ) /
          ((_ngrams (_tokenize ref) n).length : ℚ)
      else 0 := rfl

lemma rouge_n_f1_def (ref pred : Option String) (n : ℕ) :
    (rouge_n ref pred n).f1 =
      if 0 < (rouge_n ref pred n).precision + (rouge_n ref pred n).«recall» then
        2 * (rouge_n ref pred n).precision * (rouge_n ref pred n).«recall» /
          ((rouge_n ref pred n).precision + (rouge_n ref pred n).«recall»)
      else 0 := rfl

lemma rouge_l_precision_def (ref pred : Option String) :
    (rouge_l_f1 ref pred).precision =
      if 0 < (_tokenize pred).length then
        (_lcs_length (_tokenize ref) (_tokenize pred) : ℚ) / ((_tokenize pred).length : ℚ)
      else 0 := rfl

lemma rouge_l_recall_def (ref pred : Option String) :
    (rouge_l_f1 ref pred).«recall» =
      if 0 < (_tokenize ref).length then
        (_lcs_length (_tokenize ref) (_tokenize pred) : ℚ) / ((_tokenize ref).length : ℚ)
      else 0 := rfl

lemma rouge_l_f1_def (ref pred : Option String) :
    (rouge_l_f1 ref pred).f1 =
      if 0 < (rouge_l_f1 ref pred).precision + (rouge_l_f1 ref pred).«recall» then
        2 * (rouge_l_f1 ref pred).precision * (rouge_l_f1 ref pred).«recall» /
          ((rouge_l_f1 ref pred).precision + (rouge_l_f1 ref pred).«recall»)
      else 0 := rfl

/-- The full ScoreResult invariant for every value `rouge_n` returns. -/
lemma rouge_n_props (ref pred : Option String) (n : ℕ) :
    0 ≤ (rouge_n ref pred n).precision ∧ (rouge_n ref pred n).precision ≤ 1 ∧
      0 ≤ (rouge_n ref pred n).«recall» ∧ (rouge_n ref pred n).«recall» ≤ 1 ∧
      0 ≤ (rouge_n ref pred n).f1 ∧ (rouge_n ref pred n).f1 ≤ 1 ∧
      ((rouge_n ref pred n).f1 = 0 ↔
        (rouge_n ref pred n).precision + (rouge_n ref pred n).«recall» = 0) ∧
      ((rouge_n ref pred n).precision + (rouge_n ref pred n).«recall» ≠ 0 →
        (rouge_n ref pred n).f1 =
          2 * (rouge_n ref pred n).precision * (rouge_n ref pred n).«recall» /
            ((rouge_n ref pred n).precision + (rouge_n ref pred n).«recall»)) :=
  score_bounds
    (overlapCount (_ngrams (_tokenize pred) n) (_ngrams (_tokenize ref) n))
    (_ngrams (_tokenize pred) n).length (_ngrams (_tokenize ref) n).length
    (overlapCount_le_pred _ _) (overlapCount_le_ref _ _) _ _ _
    (rouge_n_precision_def ref pred n) (rouge_n_recall_def ref pred n)
    (rouge_n_f1_def ref pred n)

/-- The full ScoreResult invariant for every value `rouge_l_f1` returns. -/
lemma rouge_l_props (ref pred : Option String) :
    0 ≤ (rouge_l_f1 ref pred).precision ∧ (rouge_l_f1 ref pred).precision ≤ 1 ∧
      0 ≤ (rouge_l_f1 ref pred).«recall» ∧ (rouge_l_f1 ref pred).«recall» ≤ 1 ∧
      0 ≤ (rouge_l_f1 ref pred).f1 ∧ (rouge_l_f1 ref pred).f1 ≤ 1 ∧
      ((rouge_l_f1 ref pred).f1 = 0 ↔
        (rouge_l_f1 ref pred).precision + (rouge_l_f1 ref pred).«recall» = 0) ∧
      ((rouge_l_f1 ref pred).precision + (rouge_l_f1 ref pred).«recall» ≠ 0 →
        (rouge_l_f1 ref pred).f1 =
          2 * (rouge_l_f1 ref pred).precision * (rouge_l_f1 ref pred).«recall» /
            ((rouge_l_f1 ref pred).precision + (rouge_l_f1 ref pred).«recall»)) :=
  score_bounds (_lcs_length (_tokenize ref) (_tokenize pred))
    (_tokenize pred).length (_tokenize ref).length
    (_lcs_length_le_right _ _) (_lcs_length_le_left _ _) _ _ _
    (rouge_l_precision_def ref pred) (rouge_l_recall_def ref pred)
    (rouge_l_f1_def ref pred)

/-! ## Degenerate and identity behaviour of the metric functions -/

lemma overlapCount_nil_left (ref : List (List Token)) : overlapCount [] ref = 0 := rfl

lemma overlapCount_self (l : List (List Token)) : overlapCount l l = l.length := by
  rw [overlapCount]
  simp only [min_self, count_decEq]
  exact List.sum_map_count_dedup_eq_length l

lemma rouge_n_zero_of_short (ref pred : Option String) (n : ℕ)
    (h1 : (_tokenize ref).length < n) (h2 : (_tokenize pred).length < n) :
    rouge_n ref pred n = ⟨0, 0, 0⟩ := by
  have e1 : _ngrams (_tokenize ref) n = [] := _ngrams_eq_nil _ _ h1
  have e2 : _ngrams (_tokenize pred) n = [] := _ngrams_eq_nil _ _ h2
  have hp : (rouge_n ref pred n).precision = 0 := by
    rw [rouge_n_precision_def, e2]
    simp
  have hr : (rouge_n ref pred n).«recall» = 0 := by
    rw [rouge_n_recall_def, e1]
    simp
  ext
  · exact hp
  · exact hr
  · rw [rouge_n_f1_def, hp, hr]
    norm_num

lemma rouge_n_zero_of_pred_empty (ref pred : Option String) (n : ℕ)
    (hn : 1 ≤ n) (hpred : _tokenize pred = []) :
    rouge_n ref pred n = ⟨0, 0, 0⟩ := by
  have e2 : _ngrams (_tokenize pred) n = [] := by
    apply _ngrams_eq_nil
    rw [hpred]
    simpa using hn
  have hov : overlapCount (_ngrams (_tokenize pred) n) (_ngrams (_tokenize ref) n) = 0 := by
    rw [e2, overlapCount_nil_left]
  have hp : (rouge_n ref pred n).precision = 0 := by
    rw [rouge_n_precision_def, e2]
    simp
  have hr : (rouge_n ref pred n).«recall» = 0 := by
    rw [rouge_n_recall_def, hov]
    split_ifs <;> simp
  ext
  · exact hp
  · exact hr
  · rw [rouge_n_f1_def, hp, hr]
    norm_num

lemma rouge_l_zero_of_pred_empty (ref pred : Option String)
    (hpred : _tokenize pred = []) :
    rouge_l_f1 ref pred = ⟨0, 0, 0⟩ := by
  have hlcs : _lcs_length (_tokenize ref) (_tokenize pred) = 0 := by
    rw [lcs_length_eq_lcsSpec, hpred, lcsSpec_nil_right]
  have hp : (rouge_l_f1 ref pred).precision = 0 := by
    rw [rouge_l_precision_def, hpred]
    simp
  have hr : (rouge_l_f1 ref pred).«recall» = 0 := by
    rw [rouge_l_recall_def, hlcs]
    split_ifs <;> simp
  ext
  · exact hp
  · exact hr
  · rw [rouge_l_f1_def, hp, hr]
    norm_num

lemma rouge_n_self (t : Option String) (n : ℕ)
    (hlen : n ≤ (_tokenize t).length) :
    rouge_n t t n = ⟨1, 1, 1⟩ := by
  have hg : 0 < (_ngrams (_tokenize t) n).length := by
    rw [_ngrams_length _ _ hlen]
    omega
  have hov : overlapCount (_ngrams (_tokenize t) n) (_ngrams (_tokenize t) n) =
      (_ngrams (_tokenize t) n).length := overlapCount_self _
  have hp : (rouge_n t t n).precision = 1 := by
    rw [rouge_n_precision_def, if_pos hg, hov, div_self (by exact_mod_cast hg.ne')]
  have hr : (rouge_n t t n).«recall» = 1 := by
    rw [rouge_n_recall_def, if_pos hg, hov, div_self (by exact_mod_cast hg.ne')]
  ext
  · exact hp
  · exact hr
  · rw [rouge_n_f1_def, hp, hr]
    norm_num

lemma rouge_l_self (t : Option String) (ht : _tokenize t ≠ []) :
    rouge_l_f1 t t = ⟨1, 1, 1⟩ := by
  have hL : 0 < (_tokenize t).length := List.length_pos.mpr ht
  have hlcs : _lcs_length (_tokenize t) (_tokenize t) = (_tokenize t).length := by
    rw [lcs_length_eq_lcsSpec, lcsSpec_self]
  have hp : (rouge_l_f1 t t).precision = 1 := by
    rw [rouge_l_precision_def, if_pos hL, hlcs, div_self (by exact_mod_cast hL.ne')]
  have hr : (rouge_l_f1 t t).«recall» = 1 := by
    rw [rouge_l_recall_def, if_pos hL, hlcs, div_self (by exact_mod_cast hL.ne')]
  ext
  · exact hp
  · exact hr
  · rw [rouge_l_f1_def, hp, hr]
    norm_num

lemma _lcs_length_comm (xs ys : List Token) : _lcs_length xs ys = _lcs_length ys xs := by
  rw [lcs_length_eq_lcsSpec, lcs_length_eq_lcsSpec, lcsSpec_comm]

lemma rouge_l_swap_precision (a b : Option String) :
    (rouge_l_f1 b a).precision = (rouge_l_f1 a b).«recall» := by
  rw [rouge_l_precision_def, rouge_l_recall_def, _lcs_length_comm]

lemma rouge_l_swap_recall (a b : Option String) :
    (rouge_l_f1 b a).«recall» = (rouge_l_f1 a b).precision := by
  rw [rouge_l_recall_def, rouge_l_precision_def, _lcs_length_comm]

lemma rouge_l_swap_f1 (a b : Option String) :
    (rouge_l_f1 b a).f1 = (rouge_l_f1 a b).f1 := by
  rw [rouge_l_f1_def b a, rouge_l_f1_def a b,
    rouge_l_swap_precision a b, rouge_l_swap_recall a b,
    add_comm ((rouge_l_f1 a b).«recall») ((rouge_l_f1 a b).precision),
    mul_right_comm 2 ((rouge_l_f1 a b).«recall») ((rouge_l_f1 a b).precision)]

/-! ## Evaluation-runner helpers -/

lemma predIndex_eq_none (preds : List Prediction) (tid : String)
    (h : ∀ p ∈ preds, p.id ≠ tid) : predIndex preds tid = none := by
  rw [predIndex]
  have key : ∀ (l : List Prediction) (acc : Option Prediction),
      (∀ p ∈ l, p.id ≠ tid) →
      l.foldl (fun acc p => if p.id = tid then some p else acc) acc = acc := by
    intro l
    induction l with
    | nil => intro acc _; rfl
    | cons q l ih =>
        intro acc hq
        rw [List.foldl_cons, if_neg (hq q (List.mem_cons_self q l))]
        exact ih acc fun p hp => hq p (List.mem_cons_of_mem _ hp)
  exact key preds none h

lemma candidateOf_of_missing (preds : List Prediction) (tid : String)
    (h : ∀ p ∈ preds, p.id ≠ tid) : candidateOf preds tid = some "" := by
  rw [candidateOf, predIndex_eq_none preds tid h]

lemma mean_safe_eq (xs : List ℚ) : mean_safe xs = xs.sum / (xs.length : ℚ) := by
  rw [mean_safe]
  split_ifs with h
  · rfl
  · simp at h
    simp [h]

lemma pyIndex_natCast (l : List ℚ) (k : ℕ) (hk : k < l.length) :
    pyIndex l (k : ℤ) = some (l.getD k 0) := by
  rw [pyIndex, if_pos (Int.natCast_nonneg k), Int.toNat_natCast,
    List.getElem?_eq_getElem hk, List.getD_eq_getElem l 0 hk]

lemma pyIndex_neg_one (l : List ℚ) (hl : l ≠ []) :
    pyIndex l (-1) = some (l.getD (l.length - 1) 0) := by
  have hlen : 0 < l.length := List.length_pos.mpr hl
  rw [pyIndex, if_neg (by norm_num), if_pos (by omega)]
  have htn : ((-1) + (l.length : ℤ)).toNat = l.length - 1 := by omega
  rw [htn, List.getElem?_eq_getElem (by omega), List.getD_eq_getElem l 0 (by omega)]

lemma pyIndex_p10 (l : List ℚ) (hl : l ≠ []) :
    pyIndex l ((l.length : ℤ) / 10) = some (l.getD (l.length / 10) 0) := by
  have hlen : 0 < l.length := List.length_pos.mpr hl
  have hcast : ((l.length : ℤ) / 10) = ((l.length / 10 : ℕ) : ℤ) :=
    (Int.natCast_div l.length 10).symm
  rw [hcast]
  exact pyIndex_natCast l _ (Nat.div_lt_self hlen (by norm_num))

lemma pyIndex_p90_one (l : List ℚ) (h1 : l.length = 1) :
    pyIndex l (9 * (l.length : ℤ) / 10 - 1) = some (l.getD 0 0) := by
  have h9 : 9 * (l.length : ℤ) / 10 - 1 = -1 := by rw [h1]; norm_num
  rw [h9, pyIndex_neg_one l (by intro hnil; rw [hnil] at h1; simp at h1), h1]

lemma pyIndex_p90_ge_two (l : List ℚ) (h2 : 2 ≤ l.length) :
    pyIndex l (9 * (l.length : ℤ) / 10 - 1) =
      some (l.getD (9 * l.length / 10 - 1) 0) := by
  have hfloor : 9 * (l.length : ℤ) / 10 = ((9 * l.length / 10 : ℕ) : ℤ) := by
    rw [Int.natCast_div]
    norm_num
  have hge1 : 1 ≤ 9 * l.length / 10 := by omega
  have hidx : 9 * (l.length : ℤ) / 10 - 1 = ((9 * l.length / 10 - 1 : ℕ) : ℤ) := by
    rw [hfloor]
    omega
  rw [hidx]
  exact pyIndex_natCast l _ (by omega)

/-- Specification-side closed form of the p10 the runner computes. -/
def p10Of (l : List ℚ) : ℚ :=
  if l = [] then 0 else l.getD (l.length / 10) 0

/-- Specification-side closed form of the p90 the runner computes: for a
single-element series, Python index `-1` resolves to the only element. -/
def p90Of (l : List ℚ) : ℚ :=
  if l = [] then 0
  else if l.length = 1 then l.getD 0 0
  else l.getD (9 * l.length / 10 - 1) 0

/-- The sorted ROUGE-L F1 series the runner builds. -/
def rlSorted (tests : List TestCase) (preds : List Prediction) : List ℚ :=
  List.insertionSort (fun a b : ℚ => a ≤ b)
    ((tests.map (scoreItem preds)).map fun it => it.rougeL_f1)

/-- Closed form of `evaluate`: the two percentile lookups always succeed,
so the runner never raises. -/
lemma evaluate_eq (tests : List TestCase) (preds : List Prediction) :
    evaluate tests preds =
      some (tests.map (scoreItem preds),
        { count := (tests.map (scoreItem preds)).length
          rouge1_mean := mean_safe ((tests.map (scoreItem preds)).map fun it => it.rouge1_f1)
          rouge2_mean := mean_safe ((tests.map (scoreItem preds)).map fun it => it.rouge2_f1)
          rougeL_mean := mean_safe ((tests.map (scoreItem preds)).map fun it => it.rougeL_f1)
          rougeL_p10 := p10Of (rlSorted tests preds)
          rougeL_p90 := p90Of (rlSorted tests preds) }) := by
  rw [evaluate]
  by_cases hnil : rlSorted tests preds = []
  · rw [rlSorted] at hnil
    simp only [hnil, ne_eq, not_true_eq_false, if_false, reduceIte]
    rw [p10Of, p90Of, if_pos (by rw [rlSorted]; exact hnil), if_pos (by rw [rlSorted]; exact hnil)]
  · rw [rlSorted] at hnil
    simp only [ne_eq, hnil, not_false_eq_true, if_true, reduceIte]
    rw [pyIndex_p10 _ hnil]
    rcases Nat.lt_or_ge
        (List.insertionSort (fun a b : ℚ => a ≤ b)
          ((tests.map (scoreItem preds)).map fun it => it.rougeL_f1)).length 2 with hlt | hge
    · have h1 : (List.insertionSort (fun a b : ℚ => a ≤ b)
          ((tests.map (scoreItem preds)).map fun it => it.rougeL_f1)).length = 1 := by
        have := List.length_pos.mpr hnil
        omega
      rw [pyIndex_p90_one _ h1, p10Of, if_neg (by rw [rlSorted]; exact hnil),
        p90Of, if_neg (by rw [rlSorted]; exact hnil), if_pos (by rw [rlSorted]; exact h1)]
      rw [rlSorted, h1]
    · rw [pyIndex_p90_ge_two _ hge, p10Of, if_neg (by rw [rlSorted]; exact hnil),
        p90Of, if_neg (by rw [rlSorted]; exact hnil),
        if_neg (by rw [rlSorted]; omega)]
      rw [rlSorted]

/-! ## Claim theorems -/

/-- C1: for every reference, candidate and `n ≥ 1`, the ROUGE-N overlap
computed by `rouge_n` equals the sum over distinct candidate n-grams of
`min(count in candidate, count in reference)`, is at most
`min(total reference n-grams, total candidate n-grams)`, and the resulting
precision and recall each lie in `[0, 1]`. -/
theorem C1_rouge_n_clipped_overlap (ref pred : Option String) (n : ℕ)
    (_hn : 1 ≤ n) :
    overlapCount (_ngrams (_tokenize pred) n) (_ngrams (_tokenize ref) n) =
      ∑ ng ∈ (_ngrams (_tokenize pred) n).toFinset,
        min ((_ngrams (_tokenize pred) n).count ng)
          ((_ngrams (_tokenize ref) n).count ng) ∧
    overlapCount (_ngrams (_tokenize pred) n) (_ngrams (_tokenize ref) n) ≤
      min (_ngrams (_tokenize ref) n).length (_ngrams (_tokenize pred) n).length ∧
    0 ≤ (rouge_n ref pred n).precision ∧ (rouge_n ref pred n).precision ≤ 1 ∧
    0 ≤ (rouge_n ref pred n).«recall» ∧ (rouge_n ref pred n).«recall» ≤ 1 := by
  obtain ⟨h1, h2, h3, h4, -⟩ := rouge_n_props ref pred n
  exact ⟨overlapCount_eq_sum_toFinset _ _,
    le_min (overlapCount_le_ref _ _) (overlapCount_le_pred _ _), h1, h2, h3, h4⟩

theorem C1_rouge_n_clipped_overlap_witness :
    1 ≤ 1 ∧
      overlapCount (_ngrams (_tokenize (some "a a c")) 1)
          (_ngrams (_tokenize (some "a b a")) 1) ≤
        min (_ngrams (_tokenize (some "a b a")) 1).length
          (_ngrams (_tokenize (some "a a c")) 1).length :=
  ⟨le_refl 1,
    (C1_rouge_n_clipped_overlap (some "a b a") (some "a a c") 1 (le_refl 1)).2.1⟩

/-- C2: on every pair of token sequences, the rolling-row dynamic program
`_lcs_length` returns exactly the LCS length given by the standard
recurrence `lcsSpec`. -/
theorem C2_lcs_rolling_row_correct (xs ys : List Token) :
    _lcs_length xs ys = lcsSpec xs ys :=
  lcs_length_eq_lcsSpec xs ys

/-- C3: every score struct returned by `rouge_n` and by `rouge_l_f1` has
precision, recall and f1 in `[0, 1]`, f1 is zero exactly when
precision + recall is zero, and otherwise f1 is the harmonic-mean
formula `2pr/(p+r)`. -/
theorem C3_score_struct_invariant (ref pred : Option String) (n : ℕ) :
    (0 ≤ (rouge_n ref pred n).precision ∧ (rouge_n ref pred n).precision ≤ 1 ∧
      0 ≤ (rouge_n ref pred n).«recall» ∧ (rouge_n ref pred n).«recall» ≤ 1 ∧
      0 ≤ (rouge_n ref pred n).f1 ∧ (rouge_n ref pred n).f1 ≤ 1 ∧
      ((rouge_n ref pred n).f1 = 0 ↔
        (rouge_n ref pred n).precision + (rouge_n ref pred n).«recall» = 0) ∧
      ((rouge_n ref pred n).precision + (rouge_n ref pred n).«recall» ≠ 0 →
        (rouge_n ref pred n).f1 =
          2 * (rouge_n ref pred n).precision * (rouge_n ref pred n).«recall» /
            ((rouge_n ref pred n).precision + (rouge_n ref pred n).«recall»))) ∧
    (0 ≤ (rouge_l_f1 ref pred).precision ∧ (rouge_l_f1 ref pred).precision ≤ 1 ∧
      0 ≤ (rouge_l_f1 ref pred).«recall» ∧ (rouge_l_f1 ref pred).«recall» ≤ 1 ∧
      0 ≤ (rouge_l_f1 ref pred).f1 ∧ (rouge_l_f1 ref pred).f1 ≤ 1 ∧
      ((rouge_l_f1 ref pred).f1 = 0 ↔
        (rouge_l_f1 ref pred).precision + (rouge_l_f1 ref pred).«recall» = 0) ∧
      ((rouge_l_f1 ref pred).precision + (rouge_l_f1 ref pred).«recall» ≠ 0 →
        (rouge_l_f1 ref pred).f1 =
          2 * (rouge_l_f1 ref pred).precision * (rouge_l_f1 ref pred).«recall» /
            ((rouge_l_f1 ref pred).precision + (rouge_l_f1 ref pred).«recall»))) :=
  ⟨rouge_n_props ref pred n, rouge_l_props ref pred⟩

theorem C3_score_struct_invariant_witness :
    0 ≤ (rouge_n (some "a b") (some "b c") 1).precision ∧
      (rouge_l_f1 (some "a b") (some "b c")).f1 ≤ 1 :=
  ⟨(C3_score_struct_invariant (some "a b") (some "b c") 1).1.1,
    (C3_score_struct_invariant (some "a b") (some "b c") 1).2.2.2.2.2.2.1⟩

/-- C4: any text with a non-empty token sequence scores
precision = recall = f1 = 1 against itself, under ROUGE-N for every
`1 ≤ n ≤` token count, and under ROUGE-L. -/
theorem C4_identity (t : Option String) (n : ℕ) (hne : _tokenize t ≠ [])
    (_hn : 1 ≤ n) (hlen : n ≤ (_tokenize t).length) :
    rouge_n t t n = ⟨1, 1, 1⟩ ∧ rouge_l_f1 t t = ⟨1, 1, 1⟩ :=
  ⟨rouge_n_self t n hlen, rouge_l_self t hne⟩

theorem C4_identity_witness :
    _tokenize (some "a b") ≠ [] ∧ 1 ≤ 2 ∧ 2 ≤ (_tokenize (some "a b")).length ∧
      (rouge_n (some "a b") (some "a b") 2 = ⟨1, 1, 1⟩ ∧
        rouge_l_f1 (some "a b") (some "a b") = ⟨1, 1, 1⟩) :=
  ⟨by decide, by norm_num, by decide,
    C4_identity (some "a b") 2 (by decide) (by norm_num) (by decide)⟩

/-- C5: swapping the two arguments of `rouge_l_f1` swaps precision and
recall and leaves f1 unchanged. -/
theorem C5_rouge_l_swap (a b : String) :
    (rouge_l_f1 (some b) (some a)).precision = (rouge_l_f1 (some a) (some b)).«recall» ∧
    (rouge_l_f1 (some b) (some a)).«recall» = (rouge_l_f1 (some a) (some b)).precision ∧
    (rouge_l_f1 (some b) (some a)).f1 = (rouge_l_f1 (some a) (some b)).f1 :=
  ⟨rouge_l_swap_precision (some a) (some b),
    rouge_l_swap_recall (some a) (some b),
    rouge_l_swap_f1 (some a) (some b)⟩

/-- C6: when both inputs tokenize to fewer than `n` tokens (`None` and the
empty string included) `rouge_n` returns the all-zero struct, and
`rouge_l_f1` on two inputs that tokenize to empty returns all zeros; both
functions are total, so no error can be raised. -/
theorem C6_empty_safety :
    (∀ (ref pred : Option String) (n : ℕ), 1 ≤ n →
        (_tokenize ref).length < n → (_tokenize pred).length < n →
        rouge_n ref pred n = ⟨0, 0, 0⟩) ∧
    (∀ a b : Option String, _tokenize a = [] → _tokenize b = [] →
        rouge_l_f1 a b = ⟨0, 0, 0⟩) := by
  constructor
  · intro ref pred n _ h1 h2
    exact rouge_n_zero_of_short ref pred n h1 h2
  · intro a b _ hb
    exact rouge_l_zero_of_pred_empty a b hb

theorem C6_empty_safety_witness :
    rouge_n none (some "") 1 = ⟨0, 0, 0⟩ ∧
    rouge_n (some "") none 1 = ⟨0, 0, 0⟩ ∧
    rouge_l_f1 (some "") (some "") = ⟨0, 0, 0⟩ :=
  ⟨C6_empty_safety.1 none (some "") 1 (by norm_num) (by decide) (by decide),
    C6_empty_safety.1 (some "") none 1 (by norm_num) (by decide) (by decide),
    C6_empty_safety.2 (some "") (some "") (by decide) (by decide)⟩

/-- C7: a test case whose id has no matching prediction is scored against
the empty candidate string (never an error — the join substitutes `""`),
and against any non-empty reference all three ROUGE scores are entirely
zero. -/
theorem C7_missing_prediction (preds : List Prediction) (t : TestCase) (s : String)
    (hmiss : ∀ p ∈ preds, p.id ≠ t.id)
    (_href : t.reference_answer = some s) (_hs : s ≠ "") :
    candidateOf preds t.id = some "" ∧
    rouge_n t.reference_answer (some "") 1 = ⟨0, 0, 0⟩ ∧
    rouge_n t.reference_answer (some "") 2 = ⟨0, 0, 0⟩ ∧
    rouge_l_f1 t.reference_answer (some "") = ⟨0, 0, 0⟩ ∧
    (scoreItem preds t).rouge1_f1 = 0 ∧ (scoreItem preds t).rouge2_f1 = 0 ∧
    (scoreItem preds t).rougeL_f1 = 0 := by
  have hcand := candidateOf_of_missing preds t.id hmiss
  have hemp : _tokenize (some "") = [] := rfl
  have r1 := rouge_n_zero_of_pred_empty t.reference_answer (some "") 1 (by norm_num) hemp
  have r2 := rouge_n_zero_of_pred_empty t.reference_answer (some "") 2 (by norm_num) hemp
  have rl := rouge_l_zero_of_pred_empty t.reference_answer (some "") hemp
  refine ⟨hcand, r1, r2, rl, ?_, ?_, ?_⟩ <;>
    simp [scoreItem, hcand, r1, r2, rl]

theorem C7_missing_prediction_witness :
    candidateOf [] (("t2" : String)) = some "" ∧
    (scoreItem [] ⟨"t2", some "x y", none, none⟩).rouge1_f1 = 0 ∧
    (scoreItem [] ⟨"t2", some "x y", none, none⟩).rouge2_f1 = 0 ∧
    (scoreItem [] ⟨"t2", some "x y", none, none⟩).rougeL_f1 = 0 := by
  have h := C7_missing_prediction [] ⟨"t2", some "x y", none, none⟩ "x y"
    (by simp) rfl (by decide)
  exact ⟨h.1, h.2.2.2.2.1, h.2.2.2.2.2.1, h.2.2.2.2.2.2⟩

/-- C8: the overall statistics of a run: every mean is the arithmetic mean
of its F1 series (with the empty series giving 0), and against any sorted
ascending rearrangement `l` of the ROUGE-L series, p10 is
`l[⌊0.1 n⌋]` and p90 is the Python lookup `l[⌊0.9 n⌋ - 1]`, both 0 for an
empty series. -/
theorem C8_overall_statistics (tests : List TestCase) (preds : List Prediction)
    (items : List PerItem) (o : Overall)
    (h : evaluate tests preds = some (items, o))
    (l : List ℚ) (hperm : List.Perm (items.map fun it => it.rougeL_f1) l)
    (hsort : List.Sorted (fun a b : ℚ => a ≤ b) l) :
    o.rouge1_mean = (items.map fun it => it.rouge1_f1).sum /
        (((items.map fun it => it.rouge1_f1).length : ℚ)) ∧
    o.rouge2_mean = (items.map fun it => it.rouge2_f1).sum /
        (((items.map fun it => it.rouge2_f1).length : ℚ)) ∧
    o.rougeL_mean = (items.map fun it => it.rougeL_f1).sum /
        (((items.map fun it => it.rougeL_f1).length : ℚ)) ∧
    (items = [] → o.rouge1_mean = 0 ∧ o.rouge2_mean = 0 ∧ o.rougeL_mean = 0) ∧
    (l = [] → o.rougeL_p10 = 0 ∧ o.rougeL_p90 = 0) ∧
    (l ≠ [] → o.rougeL_p10 = l.getD (l.length / 10) 0 ∧
      pyIndex l (9 * (l.length : ℤ) / 10 - 1) = some o.rougeL_p90) := by
  rw [evaluate_eq, Option.some.injEq, Prod.mk.injEq] at h
  obtain ⟨hitems, ho⟩ := h
  subst hitems
  subst ho
  have hl : l = rlSorted tests preds :=
    List.eq_of_perm_of_sorted
      (hperm.symm.trans (List.perm_insertionSort _ _).symm)
      hsort (List.sorted_insertionSort _ _)
  refine ⟨mean_safe_eq _, mean_safe_eq _, mean_safe_eq _, ?_, ?_, ?_⟩
  · intro hempty
    rw [hempty]
    refine ⟨?_, ?_, ?_⟩ <;> simp [mean_safe]
  · intro hnil
    rw [hl] at hnil
    constructor
    · show p10Of (rlSorted tests preds) = 0
      rw [p10Of, if_pos hnil]
    · show p90Of (rlSorted tests preds) = 0
      rw [p90Of, if_pos hnil]
  · intro hne
    rw [hl] at hne
    constructor
    · rw [hl]
      show p10Of (rlSorted tests preds) =
        (rlSorted tests preds).getD ((rlSorted tests preds).length / 10) 0
      rw [p10Of, if_neg hne]
    · show pyIndex l _ = some (p90Of (rlSorted tests preds))
      rcases Nat.lt_or_ge (rlSorted tests preds).length 2 with hlt | hge
      · have h1 : (rlSorted tests preds).length = 1 := by
          have := List.length_pos.mpr hne
          omega
        rw [hl, pyIndex_p90_one _ h1, p90Of, if_neg hne, if_pos h1]
      · rw [hl, pyIndex_p90_ge_two _ hge, p90Of, if_neg hne, if_neg (by omega)]

theorem C8_overall_statistics_witness :
    (⟨1, 0, 0, 0, 0, 0⟩ : Overall).rouge1_mean =
      (([⟨"t1", "unknown", "unknown", 0, 0, 0⟩] : List PerItem).map
          fun it => it.rouge1_f1).sum /
        ((([⟨"t1", "unknown", "unknown", 0, 0, 0⟩] : List PerItem).map
          fun it => it.rouge1_f1).length : ℚ) := by
  have hemp : _tokenize (some "") = [] := rfl
  have hsc : scoreItem [] (⟨"t1", some "x", none, none⟩ : TestCase) =
      ⟨"t1", "unknown", "unknown", 0, 0, 0⟩ := by
    have hcand := candidateOf_of_missing [] "t1" (by simp)
    simp [scoreItem, hcand, safe_get,
      rouge_n_zero_of_pred_empty (some "x") (some "") 1 (by norm_num) hemp,
      rouge_n_zero_of_pred_empty (some "x") (some "") 2 (by norm_num) hemp,
      rouge_l_zero_of_pred_empty (some "x") (some "") hemp]
  have h : evaluate [⟨"t1", some "x", none, none⟩] [] =
      some ([⟨"t1", "unknown", "unknown", 0, 0, 0⟩], ⟨1, 0, 0, 0, 0, 0⟩) := by
    rw [evaluate_eq]
    simp only [List.map_cons, List.map_nil, hsc]
    norm_num [mean_safe, rlSorted, p10Of, p90Of, List.insertionSort, hsc]
  exact (C8_overall_statistics [⟨"t1", some "x", none, none⟩] []
    [⟨"t1", "unknown", "unknown", 0, 0, 0⟩] ⟨1, 0, 0, 0, 0, 0⟩ h [0]
    (by simp) (by simp)).1

/-- C9: the percentile lookups never fail: `evaluate` always returns a
value; for a non-empty series the p10 index is in range; the p90 index
`⌊0.9 n⌋ - 1` is negative exactly for `n = 1`, a negative Python index `-1`
resolves to the last element, and a single-item run has p90 equal to that
item's ROUGE-L F1. -/
theorem C9_percentile_safety :
    (∀ (tests : List TestCase) (preds : List Prediction),
        (evaluate tests preds).isSome = true) ∧
    (∀ l : List ℚ, l ≠ [] →
        (pyIndex l ((l.length : ℤ) / 10)).isSome = true ∧
        l.length / 10 ≤ l.length - 1) ∧
    (∀ l : List ℚ, l ≠ [] → (9 * (l.length : ℤ) / 10 - 1 < 0 ↔ l.length = 1)) ∧
    (∀ l : List ℚ, l ≠ [] → pyIndex l (-1) = some (l.getD (l.length - 1) 0)) ∧
    (∀ (t : TestCase) (preds : List Prediction),
        ∃ o : Overall, evaluate [t] preds = some ([scoreItem preds t], o) ∧
          o.rougeL_p90 = (scoreItem preds t).rougeL_f1) := by
  refine ⟨?_, ?_, ?_, ?_, ?_⟩
  · intro tests preds
    rw [evaluate_eq]
    rfl
  · intro l hne
    have hlen : 0 < l.length := List.length_pos.mpr hne
    refine ⟨?_, by omega⟩
    rw [pyIndex_p10 l hne]
    rfl
  · intro l hne
    have hlen : 0 < l.length := List.length_pos.mpr hne
    omega
  · intro l hne
    exact pyIndex_neg_one l hne
  · intro t preds
    refine ⟨_, evaluate_eq [t] preds, ?_⟩
    show p90Of (rlSorted [t] preds) = _
    have hrl : rlSorted [t] preds = [(scoreItem preds t).rougeL_f1] := by
      simp [rlSorted, List.insertionSort]
    rw [hrl, p90Of]
    norm_num

theorem C9_percentile_safety_witness :
    (pyIndex [(0 : ℚ)] ((([(0 : ℚ)].length : ℤ)) / 10)).isSome = true ∧
      [(0 : ℚ)].length / 10 ≤ [(0 : ℚ)].length - 1 :=
  C9_percentile_safety.2.1 [0] (by simp)

/-- C10: a difficulty or topic field that is present but null is treated
exactly like an absent field: both bucket key and per-item output fall back
to the literal string `"unknown"`. -/
theorem C10_null_field_default (t : TestCase) (preds : List Prediction) :
    safe_get (some none) "unknown" = "unknown" ∧
    safe_get none "unknown" = "unknown" ∧
    scoreItem preds { t with difficulty := some none } =
      scoreItem preds { t with difficulty := none } ∧
    bucketKey { t with difficulty := some none } =
      bucketKey { t with difficulty := none } ∧
    (scoreItem preds { t with difficulty := some none }).difficulty = "unknown" ∧
    scoreItem preds { t with topic := some none } =
      scoreItem preds { t with topic := none } ∧
    bucketKey { t with topic := some none } =
      bucketKey { t with topic := none } ∧
    (scoreItem preds { t with topic := some none }).topic = "unknown" := by
  refine ⟨rfl, rfl, ?_, ?_, ?_, ?_, ?_, ?_⟩ <;>
    simp [scoreItem, bucketKey, safe_get]

end TenancyEval
